import Mathlib

/-!
# Verification of the KubeVela definition-template render engine

Shallow embedding of `pkg/dsl/definition/template.go`: the workload and trait
renderers (`Complete`), the template-context builders (`getTemplateContext`),
the live-resource resolver (`getResourceFromObj`) and the expression
evaluator (`checkHealth` / `getStatusMessage`), together with theorems about
the behaviour the specification describes.

Go `map[string]string` / `map[string]interface{}` values are embedded as
association lists without duplicate keys; assignment replaces an existing
binding or appends a fresh one (the spec only requires serialization "to any
valid JSON representation", so no key ordering is imposed).
External collaborators (the CUE constraint engine, the `model` wrapper
package, the `process` execution context, the cluster-read client and the
`oam`/`util` helpers) live outside the embedded file and are modelled from
the specification where noted.
-/

set_option autoImplicit false

namespace KubeVela

/-- Association-list map with string keys: the embedding of a Go
string-keyed map. Assignment replaces the binding of an existing key and
appends a fresh one. -/
def alistInsert {α : Type} : List (String × α) → String → α → List (String × α)
  | [], k, v => [(k, v)]
  | (k', v') :: rest, k, v =>
    if k = k' then (k, v) :: rest
    else (k', v') :: alistInsert rest k v

/-- Map lookup on the association list (first matching key wins). -/
def alistLookup {α : Type} : List (String × α) → String → Option α
  | [], _ => none
  | (k', v') :: rest, k => if k = k' then some v' else alistLookup rest k

/-- Go `map[string]string`, as used for label sets. -/
abbrev SMap := List (String × String)

/-- JSON values as they occur in the template context: strings (labels) and
objects (resolved cluster resources, `map[string]interface{}` in Go). -/
inductive JVal where
  | str : String → JVal
  | obj : List (String × JVal) → JVal

/-- A JSON object body (`map[string]interface{}`). -/
abbrev JObj := List (String × JVal)

/-- Escape a character for a JSON string literal (the fragment of Go
`encoding/json` string escaping our value domain exercises). -/
def jsonEscapeChar (c : Char) : String :=
  if c = '"' then "\\\"" else if c = '\\' then "\\\\" else String.singleton c

/-- Escape a string for inclusion in a JSON source text. -/
def jsonEscape (s : String) : String :=
  String.join (s.data.map jsonEscapeChar)

mutual

/-- Modelled from the spec: serialize a context value "to any valid JSON
representation" (Go `json.Marshal`; map keys are already in sorted order in
the canonical association list). -/
def renderJVal : JVal → String
  | .str s => "\"" ++ jsonEscape s ++ "\""
  | .obj fs => "\x7b" ++ renderJFields fs ++ "\x7d"

/-- Render the comma-separated field list of a JSON object. -/
def renderJFields : List (String × JVal) → String
  | [] => ""
  | [(k, v)] => "\"" ++ jsonEscape k ++ "\":" ++ renderJVal v
  | (k, v) :: rest => "\"" ++ jsonEscape k ++ "\":" ++ renderJVal v ++ "," ++ renderJFields rest

end

/-- Serialize a whole JSON object (the template context root). -/
def renderJObj (o : JObj) : String := "\x7b" ++ renderJFields o ++ "\x7d"

/-! ## Constants from the `oam` package (outside `src/`)

Modelled from the spec and the source comments: the workload main resource
label, the trait-type label, the trait-resource (outputs name) label, and
the two common labels derived from the base context. -/

/-- `oam.LabelAppName`: the application-name label key. -/
def LabelAppName : String := "app.oam.dev/name"

/-- `oam.LabelAppComponent`: the component-name label key. -/
def LabelAppComponent : String := "app.oam.dev/component"

/-- `oam.LabelOAMResourceType`: the resource-type label key
(source comment: `"app.oam.dev/resourceType"="WORKLOAD"`). -/
def LabelOAMResourceType : String := "app.oam.dev/resourceType"

/-- `oam.ResourceTypeWorkload`. -/
def ResourceTypeWorkload : String := "WORKLOAD"

/-- `oam.TraitTypeLabel`. -/
def TraitTypeLabel : String := "trait.oam.dev/type"

/-- `oam.TraitResource`: the outputs-resource label key
(source comment: `"trait.oam.dev/resource"="name of outputs"`). -/
def TraitResource : String := "trait.oam.dev/resource"

/-- Field-name constants from the source. -/
def OutputFieldName : String := "output"

/-- `OutputsFieldName`. -/
def OutputsFieldName : String := "outputs"

/-- `PatchFieldName`. -/
def PatchFieldName : String := "patch"

/-- `CustomMessage`. -/
def CustomMessage : String := "message"

/-- `HealthCheckPolicy`. -/
def HealthCheckPolicy : String := "isHealth"

/-- `AuxiliaryWorkload` sentinel type. -/
def AuxiliaryWorkload : String := "AuxiliaryWorkload"

/-! ## The cluster-read client (external collaborator, modelled from spec §6) -/

/-- A live cluster object as the read client surfaces it: group-version-kind,
namespace, name, labels, and the unstructured payload (`u.Object`). -/
structure ClusterObj where
  gvk : String
  ns : String
  name : String
  labels : SMap
  object : JObj

/-- The cluster-read client, embedded as the list of live objects it can see. -/
abbrev Client := List ClusterObj

/-- Modelled from the spec: `ClusterReader.getByKindAndName(kind, namespace,
name) → object | NotFound` (`util.GetObjectGivenGVKAndName`, outside `src/`). -/
def getObjectGivenGVKAndName (cli : Client) (gvk ns name : String) : Except String ClusterObj :=
  match cli.find? (fun o => o.gvk == gvk && o.ns == ns && o.name == name) with
  | some o => .ok o
  | none => .error ("not found " ++ gvk ++ " " ++ ns ++ "/" ++ name)

/-- Kubernetes label-selector match: every selector entry is present in the
object's labels with an equal value. -/
def labelsMatch (sel : SMap) (objLabels : SMap) : Bool :=
  sel.all (fun kv => alistLookup objLabels kv.1 == some kv.2)

/-- Modelled from the spec: `ClusterReader.listByKindAndLabels(kind,
namespace, labels) → list<object>` (`util.GetObjectsGivenGVKAndLabels`,
outside `src/`). -/
def getObjectsGivenGVKAndLabels (cli : Client) (gvk ns : String) (labels : SMap) :
    Except String (List ClusterObj) :=
  .ok (cli.filter (fun o => o.gvk == gvk && o.ns == ns && labelsMatch labels o.labels))

/-! ## The live-resource resolver: `getResourceFromObj` -/

/-- The data the resolver reads off a rendered symbolic object
(`*unstructured.Unstructured`): its group-version-kind and its (possibly
empty) concrete name. -/
structure UnstrRef where
  gvk : String
  name : String
deriving DecidableEq

/-- Render a label map for the diagnostic error message. -/
def renderLabels (labels : SMap) : String :=
  String.intercalate " " (labels.map (fun kv => kv.1 ++ ":" ++ kv.2))

/-- The body of the resolver after the label-map mutation: the by-name fetch
or the list-and-disambiguate path of `getResourceFromObj`
(template.go lines 388-407), run against the (already mutated) label map. -/
def resolveCore (obj : UnstrRef) (cli : Client) (ns : String) (labels : SMap)
    (outputsResource : String) : Except String JObj :=
  if obj.name ≠ "" then
    match getObjectGivenGVKAndName cli obj.gvk ns obj.name with
    | .ok u => .ok u.object
    | .error e => .error e
  else
    match getObjectsGivenGVKAndLabels cli obj.gvk ns labels with
    | .error e => .error e
    | .ok list =>
      match list with
      | [v] => .ok v.object
      | items =>
        match items.find? (fun v => (alistLookup v.labels TraitResource).getD "" == outputsResource) with
        | some v => .ok v.object
        | none => .error ("no resources found gvk(" ++ obj.gvk ++ ") labels(" ++ renderLabels labels ++ ")")

/-- `getResourceFromObj` (template.go lines 384-407). The Go function mutates
the caller-supplied `labels` map in place when `outputsResource` is non-empty;
the embedding returns the resolution result together with the final state of
that map (which is exactly the map the list operation receives). -/
def getResourceFromObj (obj : UnstrRef) (cli : Client) (ns : String) (labels : SMap)
    (outputsResource : String) : Except String JObj × SMap :=
  let labels := if outputsResource ≠ "" then alistInsert labels TraitResource outputsResource else labels
  (resolveCore obj cli ns labels outputsResource, labels)

/-! ## The `model` wrapper package (external collaborator)

`model.NewBase` / `model.NewOther` wrap an evaluated CUE value into a
queryable model instance; `Instance.Unstructured()` converts it to an
unstructured object. Both steps can fail. The embedding keeps the wrapped
value abstract as a `Value` classifying those outcomes. -/

/-- An evaluated CUE value, as the wrapper package sees it:
`ref` wraps and converts cleanly, `refErr` wraps but fails the later
unstructured conversion, `absent` is a lookup that found no field, and
`malformed` fails wrapping. -/
inductive Value where
  | ref : UnstrRef → Value
  | refErr : String → Value
  | absent : Value
  | malformed : String → Value
deriving DecidableEq

/-- `cue.Value.Exists()`. -/
def Value.existsb : Value → Bool
  | .absent => false
  | _ => true

/-- Modelled from the spec: `model.NewBase` wraps an evaluated value into a
Base value, failing on an absent or malformed value. -/
def newBase : Value → Except String Value
  | .absent => .error "not found"
  | .malformed m => .error m
  | v => .ok v

/-- Modelled from the spec: `model.NewOther` wraps an evaluated value into a
generic object-model value, failing on an absent or malformed value. -/
def newOther : Value → Except String Value
  | .absent => .error "not found"
  | .malformed m => .error m
  | v => .ok v

/-- `model.Instance.Unstructured()`: convert the wrapped value to the
unstructured reference the resolver consumes. -/
def unstructured : Value → Except String UnstrRef
  | .ref r => .ok r
  | .refErr m => .error m
  | .absent => .error "not found"
  | .malformed m => .error m

/-! ## The `process` execution context (external collaborator, spec §6) -/

/-- `process.Auxiliary`: a secondary rendered object. -/
structure Auxiliary where
  ins : Value
  type : String := ""
  name : String := ""
  isOutputs : Bool := false
deriving DecidableEq

/-- `process.Context`: the per-component accumulator carrying the base
context labels, the Base and the ordered Auxiliary collection. -/
structure ProcessCtx where
  baseContextLabels : SMap
  base : Option Value := none
  auxiliaries : List Auxiliary := []
deriving DecidableEq

/-- `ctx.SetBase`. -/
def ProcessCtx.setBase (ctx : ProcessCtx) (v : Value) : ProcessCtx :=
  { ctx with base := some v }

/-- `ctx.PutAuxiliaries`: register a secondary output (appended, preserving
declaration order). -/
def ProcessCtx.putAuxiliary (ctx : ProcessCtx) (a : Auxiliary) : ProcessCtx :=
  { ctx with auxiliaries := ctx.auxiliaries ++ [a] }

/-- `ctx.Output()`: the Base (absent when never set) and the Auxiliaries. -/
def ProcessCtx.output (ctx : ProcessCtx) : Value × List Auxiliary :=
  (ctx.base.getD Value.absent, ctx.auxiliaries)

/-! ## Built CUE instances (the constraint engine is an external collaborator)

`cue.Build` turns the template text, the optional parameter fragment and the
base-context file into evaluated instances; `Complete` consumes those. The
embedding takes the built instances as input: field lookups are recorded as
the fields below (`outputsStruct` is the combined result of
`Lookup(OutputsFieldName)` followed by `.Struct()`). -/

/-- One field of an `outputs` struct, with the flags the filtering step
inspects (`st.Field(i)`). -/
structure FieldInfo where
  name : String
  value : Value
  isDefinition : Bool := false
  isHidden : Bool := false
  isOptional : Bool := false
deriving DecidableEq

/-- A built CUE instance as `Complete` inspects it. -/
structure Instance where
  err : Option String := none
  output : Value := .absent
  outputsStruct : Except String (List FieldInfo) := .error "not a struct"
  processingExists : Bool := false
  patch : Value := .absent

/-! ## The workload renderer: `workloadDef.Complete` (template.go 74-119) -/

/-- The `outputs` registration loop shared by both renderers
(template.go 105-115 and 293-303): filter flagged fields, wrap each kept
field, register it as an `IsOutputs` Auxiliary; a wrap failure aborts with an
error carrying the field name. -/
def registerOutputs (mkErr : String → String → String) (auxType : String) :
    List FieldInfo → ProcessCtx → Except String ProcessCtx
  | [], ctx => .ok ctx
  | f :: fs, ctx =>
    if f.isDefinition || f.isHidden || f.isOptional then
      registerOutputs mkErr auxType fs ctx
    else
      match newOther f.value with
      | .error e => .error (mkErr f.name e)
      | .ok other =>
        registerOutputs mkErr auxType fs
          (ctx.putAuxiliary { ins := other, type := auxType, name := f.name, isOutputs := true })

/-- `workloadDef.Complete`, from the built instances onward (the build of the
template text, parameter fragment and base-context file is the external CUE
engine): evaluate, install the `output` field as the Base, then register the
filtered `outputs` fields as `AuxiliaryWorkload` Auxiliaries. -/
def workloadComplete (wdName : String) : List Instance → ProcessCtx → Except String ProcessCtx
  | [], ctx => .ok ctx
  | inst :: rest, ctx =>
    match inst.err with
    | some e => .error ("workloadDef " ++ wdName ++ " eval: " ++ e)
    | none =>
      match newBase inst.output with
      | .error e => .error ("workloadDef " ++ wdName ++ " new base: " ++ e)
      | .ok base =>
        let ctx := ctx.setBase base
        match inst.outputsStruct with
        | .error _ => workloadComplete wdName rest ctx
        | .ok fields =>
          match registerOutputs
              (fun fname e => "parse WorkloadDefinition " ++ wdName ++ " outputs(" ++ fname ++ "): " ++ e)
              AuxiliaryWorkload fields ctx with
          | .error e => .error e
          | .ok ctx => workloadComplete wdName rest ctx

/-! ## The trait renderer: `traitDef.Complete` (template.go 251-319) -/

/-- `traitDef.Complete`, from the built instances onward. `proc` embeds the
external pre-processing capability (`task.Process`); `unify` embeds the
external unification of the Base with a patch (`base.Unify`). When no Base
exists yet the patch step is a silent no-op (spec §9). -/
def traitComplete (tdName : String) (proc : Instance → Except String Instance)
    (unify : Value → Value → Except String Value) :
    List Instance → ProcessCtx → Except String ProcessCtx
  | [], ctx => .ok ctx
  | inst :: rest, ctx =>
    match inst.err with
    | some e => .error ("traitDef " ++ tdName ++ " build: " ++ e)
    | none =>
      match (if inst.processingExists then proc inst else .ok inst) with
      | .error e => .error ("traitDef " ++ tdName ++ " build: " ++ e)
      | .ok inst =>
        let step2 : Except String ProcessCtx :=
          if inst.output.existsb then
            match newOther inst.output with
            | .error e => .error ("traitDef " ++ tdName ++ " new Assist: " ++ e)
            | .ok other =>
              .ok (ctx.putAuxiliary { ins := other, type := tdName, name := "", isOutputs := false })
          else .ok ctx
        match step2 with
        | .error e => .error e
        | .ok ctx =>
          let step3 : Except String ProcessCtx :=
            match inst.outputsStruct with
            | .error _ => .ok ctx
            | .ok fields =>
              registerOutputs
                (fun fname e => "traitDef " ++ tdName ++ " new Assists(" ++ fname ++ "): " ++ e)
                tdName fields ctx
          match step3 with
          | .error e => .error e
          | .ok ctx =>
            let step4 : Except String ProcessCtx :=
              if inst.patch.existsb then
                match ctx.base with
                | none => .ok ctx
                | some b =>
                  match newOther inst.patch with
                  | .error e => .error ("traitDef " ++ tdName ++ " patcher NewOther: " ++ e)
                  | .ok p =>
                    match unify b p with
                    | .error e => .error e
                    | .ok b2 => .ok { ctx with base := some b2 }
              else .ok ctx
            match step4 with
            | .error e => .error e
            | .ok ctx => traitComplete tdName proc unify rest ctx

/-! ## The template-context builders: `getTemplateContext` -/

/-- Modelled from the spec: the union of the fixed resolution label with the
common labels (`util.MergeMapOverrideWithDst(src, dst)`, outside `src/`:
entries of `src` override `dst`). -/
def mergeMapOverrideWithDst (src dst : SMap) : SMap :=
  src.foldl (fun acc kv => alistInsert acc kv.1 kv.2) dst

/-- The shared loop over `ctx.BaseContextLabels()` (template.go 125-133 and
324-332): copy every base-context key verbatim into the root context, and
derive `commonLabels` from the two specially recognized keys `appName` and
`name`. -/
def buildRootAndCommon : SMap → JObj × SMap
  | [] => ([], [])
  | (k, v) :: rest =>
    let rc := buildRootAndCommon rest
    (alistInsert rc.1 k (.str v),
     if k = "appName" then alistInsert rc.2 LabelAppName v
     else if k = "name" then alistInsert rc.2 LabelAppComponent v
     else rc.2)

/-- The auxiliary loop of the workload variant (template.go 149-170): for
every `AuxiliaryWorkload`-typed auxiliary, require a non-empty name, resolve
it with label set `{traitType: AuxiliaryWorkload} ∪ commonLabels` and
outputs-resource equal to the name, and assign (overwrite) `root.outputs`
with the single-entry map for it. -/
def wdAuxLoop (cli : Client) (ns : String) (commonLabels : SMap) :
    JObj → List Auxiliary → Except String JObj
  | root, [] => .ok root
  | root, assist :: rest =>
    if assist.type ≠ AuxiliaryWorkload then wdAuxLoop cli ns commonLabels root rest
    else if assist.name = "" then
      .error "the auxiliary of workload must have a name with format \x27outputs.<my-name>\x27"
    else
      match unstructured assist.ins with
      | .error e => .error e
      | .ok traitRef =>
        match (getResourceFromObj traitRef cli ns
            (mergeMapOverrideWithDst [(TraitTypeLabel, AuxiliaryWorkload)] commonLabels)
            assist.name).1 with
        | .error e => .error e
        | .ok object =>
          wdAuxLoop cli ns commonLabels
            (alistInsert root OutputsFieldName (.obj [(assist.name, .obj object)])) rest

/-- `workloadDef.getTemplateContext` (template.go 121-172): build the root
and common labels, resolve the Base with label set
`{resourceType: WORKLOAD} ∪ commonLabels` into `root.output`, then run the
auxiliary loop. -/
def wdGetTemplateContext (ctx : ProcessCtx) (cli : Client) (ns : String) :
    Except String JObj :=
  let root := (buildRootAndCommon ctx.baseContextLabels).1
  let commonLabels := (buildRootAndCommon ctx.baseContextLabels).2
  let base := ctx.output.1
  let assists := ctx.output.2
  match unstructured base with
  | .error e => .error e
  | .ok componentWorkload =>
    match (getResourceFromObj componentWorkload cli ns
        (mergeMapOverrideWithDst [(LabelOAMResourceType, ResourceTypeWorkload)] commonLabels)
        "").1 with
    | .error e => .error e
    | .ok object =>
      wdAuxLoop cli ns commonLabels (alistInsert root OutputFieldName (.obj object)) assists

/-- The auxiliary loop of the trait variant (template.go 334-356): for every
auxiliary whose type equals the trait's name, resolve it with label set
`{traitType: Type} ∪ commonLabels` and outputs-resource equal to its name;
an `IsOutputs` auxiliary overwrites `root.outputs` with its single-entry
map, any other assigns `root.output`. -/
def tdAuxLoop (tdName : String) (cli : Client) (ns : String) (commonLabels : SMap) :
    JObj → List Auxiliary → Except String JObj
  | root, [] => .ok root
  | root, assist :: rest =>
    if assist.type ≠ tdName then tdAuxLoop tdName cli ns commonLabels root rest
    else
      match unstructured assist.ins with
      | .error e => .error e
      | .ok traitRef =>
        match (getResourceFromObj traitRef cli ns
            (mergeMapOverrideWithDst [(TraitTypeLabel, assist.type)] commonLabels)
            assist.name).1 with
        | .error e => .error e
        | .ok object =>
          if assist.isOutputs then
            tdAuxLoop tdName cli ns commonLabels
              (alistInsert root OutputsFieldName (.obj [(assist.name, .obj object)])) rest
          else
            tdAuxLoop tdName cli ns commonLabels
              (alistInsert root OutputFieldName (.obj object)) rest

/-- `traitDef.getTemplateContext` (template.go 321-358). -/
def tdGetTemplateContext (tdName : String) (ctx : ProcessCtx) (cli : Client) (ns : String) :
    Except String JObj :=
  let root := (buildRootAndCommon ctx.baseContextLabels).1
  let commonLabels := (buildRootAndCommon ctx.baseContextLabels).2
  let assists := ctx.output.2
  tdAuxLoop tdName cli ns commonLabels root assists

/-! ## The expression evaluator (CUE runtime is an external collaborator) -/

/-- The value a compiled-instance field lookup yields, as the evaluator
coerces it: a boolean, a string, a missing field, or some other kind. -/
inductive CueVal where
  | bool : Bool → CueVal
  | str : String → CueVal
  | missing : CueVal
  | other : CueVal
deriving DecidableEq

/-- `cue.Value.Bool()`: succeed only on a boolean. -/
def cueBool : CueVal → Except String Bool
  | .bool b => .ok b
  | .str _ => .error "cannot use value as bool"
  | .missing => .error "field not found"
  | .other => .error "cannot use value as bool"

/-- `cue.Value.String()`: succeed only on a string. -/
def cueString : CueVal → Except String String
  | .str s => .ok s
  | .bool _ => .error "cannot use value as string"
  | .missing => .error "field not found"
  | .other => .error "cannot use value as string"

/-- A compiled CUE instance: field lookup. -/
structure CueInstance where
  lookup : String → CueVal

/-- The CUE runtime (`cue.Runtime` with `Compile`), the external constraint
engine consumed by the expression evaluator. -/
structure CueRuntime where
  compile : String → Except String CueInstance

/-- `checkHealth` (template.go 186-203): marshal the template context,
synthesize `"context: " + json + "\n" + template`, compile it and extract
`isHealth` as a boolean. -/
def checkHealth (r : CueRuntime) (templateContext : JObj) (healthPolicyTemplate : String) :
    Except String Bool :=
  let bt := renderJObj templateContext
  let buff := "context: " ++ bt ++ "\n" ++ healthPolicyTemplate
  match r.compile buff with
  | .error e => .error ("compile health template: " ++ e)
  | .ok inst =>
    match cueBool (inst.lookup HealthCheckPolicy) with
    | .error e => .error ("evaluate health status: " ++ e)
    | .ok healthy => .ok healthy

/-- `getStatusMessage` (template.go 217-229): marshal the template context,
synthesize the same source shape, compile it and extract `message` as a
string (compile and lookup errors are returned unwrapped). -/
def getStatusMessage (r : CueRuntime) (templateContext : JObj) (customStatusTemplate : String) :
    Except String String :=
  let bt := renderJObj templateContext
  let buff := "context: " ++ bt ++ "\n" ++ customStatusTemplate
  match r.compile buff with
  | .error e => .error e
  | .ok inst => cueString (inst.lookup CustomMessage)

/-- `workloadDef.HealthCheck` (template.go 175-184): empty policy template
short-circuits to true. -/
def wdHealthCheck (r : CueRuntime) (ctx : ProcessCtx) (cli : Client) (ns : String)
    (healthPolicyTemplate : String) : Except String Bool :=
  if healthPolicyTemplate = "" then .ok true
  else
    match wdGetTemplateContext ctx cli ns with
    | .error e => .error ("get template context: " ++ e)
    | .ok templateContext => checkHealth r templateContext healthPolicyTemplate

/-- `workloadDef.Status` (template.go 206-215): empty status template
short-circuits to the empty string. -/
def wdStatus (r : CueRuntime) (ctx : ProcessCtx) (cli : Client) (ns : String)
    (customStatusTemplate : String) : Except String String :=
  if customStatusTemplate = "" then .ok ""
  else
    match wdGetTemplateContext ctx cli ns with
    | .error e => .error ("get template context: " ++ e)
    | .ok templateContext => getStatusMessage r templateContext customStatusTemplate

/-- `traitDef.HealthCheck` (template.go 373-382). -/
def tdHealthCheck (tdName : String) (r : CueRuntime) (ctx : ProcessCtx) (cli : Client)
    (ns : String) (healthPolicyTemplate : String) : Except String Bool :=
  if healthPolicyTemplate = "" then .ok true
  else
    match tdGetTemplateContext tdName ctx cli ns with
    | .error e => .error ("get template context: " ++ e)
    | .ok templateContext => checkHealth r templateContext healthPolicyTemplate

/-- `traitDef.Status` (template.go 361-370). -/
def tdStatus (tdName : String) (r : CueRuntime) (ctx : ProcessCtx) (cli : Client)
    (ns : String) (customStatusTemplate : String) : Except String String :=
  if customStatusTemplate = "" then .ok ""
  else
    match tdGetTemplateContext tdName ctx cli ns with
    | .error e => .error ("get template context: " ++ e)
    | .ok templateContext => getStatusMessage r templateContext customStatusTemplate

/-! # Theorems -/

/-- Map lookup after map assignment: the assigned key reads back the new
value, every other key is untouched. -/
theorem alistLookup_insert {α : Type} (m : List (String × α)) (k k' : String) (v : α) :
    alistLookup (alistInsert m k v) k' = if k' = k then some v else alistLookup m k' := by
  induction m with
  | nil => simp [alistInsert, alistLookup]
  | cons hd tl ih =>
    obtain ⟨k0, v0⟩ := hd
    by_cases h : k = k0
    · subst h
      by_cases h' : k' = k <;> simp [alistInsert, alistLookup, h']
    · by_cases h' : k' = k0
      · subst h'
        simp [alistInsert, h, alistLookup, Ne.symm h]
      · simp [alistInsert, h, alistLookup, h', ih]

/-- C4: for every renderer, execution context, client and namespace,
`HealthCheck` with an empty policy template returns `(true, nil)` and
`Status` with an empty status template returns `("", nil)` — for every CUE
runtime, context and client, so no template context is built, no cluster
read is performed and nothing is evaluated. -/
theorem empty_template_short_circuit (tdName : String) (r : CueRuntime) (ctx : ProcessCtx)
    (cli : Client) (ns : String) :
    wdHealthCheck r ctx cli ns "" = .ok true ∧
    wdStatus r ctx cli ns "" = .ok "" ∧
    tdHealthCheck tdName r ctx cli ns "" = .ok true ∧
    tdStatus tdName r ctx cli ns "" = .ok "" := by
  refine ⟨?_, ?_, ?_, ?_⟩ <;> simp [wdHealthCheck, wdStatus, tdHealthCheck, tdStatus]

/-- C10: every call of the live-resource resolver with a non-empty
`outputsResource` mutates the caller-supplied label map in place — whatever
the result and also on the by-name fetch path, the final map binds the
trait-resource key to `outputsResource` and keeps every other entry. -/
theorem labels_mutated_in_place (obj : UnstrRef) (cli : Client) (ns : String) (m : SMap)
    (r k : String) (hr : r ≠ "") :
    alistLookup (getResourceFromObj obj cli ns m r).2 k =
      if k = TraitResource then some r else alistLookup m k := by
  simp [getResourceFromObj, hr, alistLookup_insert]

/-- Witness for C10: a by-name fetch with `outputsResource = "res"` leaves
the trait-resource key bound in the caller's map. -/
theorem labels_mutated_in_place_w :
    alistLookup (getResourceFromObj ⟨"v1/Pod", "p"⟩ [] "ns" [("app", "a")] "res").2
        TraitResource = some "res" ∧
    alistLookup (getResourceFromObj ⟨"v1/Pod", "p"⟩ [] "ns" [("app", "a")] "res").2
        "app" = some "a" := by
  have h1 := labels_mutated_in_place ⟨"v1/Pod", "p"⟩ [] "ns" [("app", "a")] "res"
    TraitResource (by decide)
  have h2 := labels_mutated_in_place ⟨"v1/Pod", "p"⟩ [] "ns" [("app", "a")] "res"
    "app" (by decide)
  refine ⟨?_, ?_⟩
  · simpa using h1
  · rw [h2]; simp [alistLookup, TraitResource]

/-- Counterexample to C2: with a nameless symbolic object, the labels the
list operation receives with `outputsResource = "x"` differ from those
received with an empty `outputsResource` — the qualifier is part of the
listing label set, and it changes the outcome (no candidate matches the
qualified set, while the unqualified set resolves the single candidate). -/
theorem listing_labels_qualifier_ce :
    ((getResourceFromObj ⟨"v1/Pod", ""⟩
        [⟨"v1/Pod", "default", "p1", [("app", "a")], [("kind", JVal.str "Pod")]⟩]
        "default" [("app", "a")] "x").2 ≠
      (getResourceFromObj ⟨"v1/Pod", ""⟩
        [⟨"v1/Pod", "default", "p1", [("app", "a")], [("kind", JVal.str "Pod")]⟩]
        "default" [("app", "a")] "").2) ∧
    (getResourceFromObj ⟨"v1/Pod", ""⟩
        [⟨"v1/Pod", "default", "p1", [("app", "a")], [("kind", JVal.str "Pod")]⟩]
        "default" [("app", "a")] "x").1 =
      .error "no resources found gvk(v1/Pod) labels(app:a trait.oam.dev/resource:x)" ∧
    (getResourceFromObj ⟨"v1/Pod", ""⟩
        [⟨"v1/Pod", "default", "p1", [("app", "a")], [("kind", JVal.str "Pod")]⟩]
        "default" [("app", "a")] "").1 =
      .ok [("kind", JVal.str "Pod")] := by
  refine ⟨by decide, by rfl, by rfl⟩

/-- C2 amended: for a non-empty `outputsResource` the label map the list
operation receives (and which the caller retains) is the given map with the
trait-resource key bound to `outputsResource` — the listing label set
includes the outputs-resource qualifier, a narrower candidate set. -/
theorem listing_labels_qualifier_amended (obj : UnstrRef) (cli : Client) (ns : String)
    (m : SMap) (r : String) (hr : r ≠ "") :
    (getResourceFromObj obj cli ns m r).2 = alistInsert m TraitResource r ∧
    (obj.name = "" →
      ∀ items, getObjectsGivenGVKAndLabels cli obj.gvk ns (alistInsert m TraitResource r) =
          .ok items →
        (getResourceFromObj obj cli ns m r).1 =
          (match items with
           | [v] => .ok v.object
           | its =>
             match its.find? (fun v => (alistLookup v.labels TraitResource).getD "" == r) with
             | some v => .ok v.object
             | none => .error ("no resources found gvk(" ++ obj.gvk ++ ") labels(" ++
                 renderLabels (alistInsert m TraitResource r) ++ ")"))) := by
  constructor
  · simp [getResourceFromObj, hr]
  · intro hname items hitems
    simp only [getResourceFromObj, hr, if_true, ne_eq, not_true_eq_false, hname,
      not_false_eq_true, resolveCore, ite_not]
    simp [hname, hitems]

/-- Witness for C2 amended: a concrete nameless resolution with qualifier
`"x"` consults the qualified label set and finds the qualified candidate. -/
theorem listing_labels_qualifier_amended_w :
    (getResourceFromObj ⟨"v1/Pod", ""⟩
        [⟨"v1/Pod", "default", "p1", [("app", "a"), (TraitResource, "x")], [("n", JVal.str "A")]⟩,
         ⟨"v1/Pod", "default", "p2", [("app", "a"), (TraitResource, "y")], [("n", JVal.str "B")]⟩]
        "default" [] "x").2 = [(TraitResource, "x")] ∧
    (getResourceFromObj ⟨"v1/Pod", ""⟩
        [⟨"v1/Pod", "default", "p1", [("app", "a"), (TraitResource, "x")], [("n", JVal.str "A")]⟩,
         ⟨"v1/Pod", "default", "p2", [("app", "a"), (TraitResource, "y")], [("n", JVal.str "B")]⟩]
        "default" [] "x").1 = .ok [("n", JVal.str "A")] := by
  have h := listing_labels_qualifier_amended ⟨"v1/Pod", ""⟩
    [⟨"v1/Pod", "default", "p1", [("app", "a"), (TraitResource, "x")], [("n", JVal.str "A")]⟩,
     ⟨"v1/Pod", "default", "p2", [("app", "a"), (TraitResource, "y")], [("n", JVal.str "B")]⟩]
    "default" [] "x" (by decide)
  refine ⟨by simpa using h.1, ?_⟩
  have h2 := h.2 rfl _ rfl
  rw [h2]; rfl

/-- C9: a nameless resolution with empty `outputsResource` whose listing
yields two or more candidates returns the first candidate in list order
whose trait-resource label reads back as the empty string (a missing key
compares equal to `""`), and fails exactly when no such candidate exists,
i.e. when every candidate carries a non-empty trait-resource label. -/
theorem ambiguity_first_unlabeled (obj : UnstrRef) (cli : Client) (ns : String)
    (labels : SMap) (items : List ClusterObj) (hname : obj.name = "")
    (hitems : getObjectsGivenGVKAndLabels cli obj.gvk ns labels = .ok items)
    (hlen : 2 ≤ items.length) :
    ((getResourceFromObj obj cli ns labels "").1 =
      match items.find? (fun v => (alistLookup v.labels TraitResource).getD "" == "") with
      | some v => .ok v.object
      | none => .error ("no resources found gvk(" ++ obj.gvk ++ ") labels(" ++
          renderLabels labels ++ ")")) ∧
    (items.find? (fun v => (alistLookup v.labels TraitResource).getD "" == "") = none ↔
      ∀ v ∈ items, (alistLookup v.labels TraitResource).getD "" ≠ "") := by
  constructor
  · match items, hlen with
    | a :: b :: t, _ =>
      simp only [getResourceFromObj, resolveCore, hname]
      simp [hitems]
  · rw [List.find?_eq_none]
    simp

/-- The workload auxiliary loop succeeds only when every
`AuxiliaryWorkload`-typed auxiliary carries a non-empty name. -/
theorem wdAuxLoop_names (cli : Client) (ns : String) (common : SMap)
    (assists : List Auxiliary) :
    ∀ root root' : JObj, wdAuxLoop cli ns common root assists = .ok root' →
      ∀ a ∈ assists, a.type = AuxiliaryWorkload → a.name ≠ "" := by
  induction assists with
  | nil => intro root root' _ a ha; simp at ha
  | cons hd rest ih =>
    intro root root' h a ha hty
    simp only [wdAuxLoop] at h
    by_cases hhd : hd.type ≠ AuxiliaryWorkload
    · rw [if_pos hhd] at h
      rcases List.mem_cons.mp ha with rfl | ha'
      · exact absurd hty hhd
      · exact ih root root' h a ha' hty
    · rw [if_neg hhd] at h
      by_cases hn : hd.name = ""
      · rw [if_pos hn] at h
        simp at h
      · rw [if_neg hn] at h
        rcases List.mem_cons.mp ha with rfl | ha'
        · exact hn
        · split at h
          · simp at h
          · split at h
            · simp at h
            · exact ih _ root' h a ha' hty

/-- Counterexample to C1: the trait-variant context builder does not fail on
an `IsOutputs=true` auxiliary with empty name whose type equals the trait's
name — it resolves the auxiliary and stores it under the empty name. -/
theorem trait_empty_name_no_config_error_ce :
    tdGetTemplateContext "mytrait"
        { baseContextLabels := [], base := none,
          auxiliaries := [{ ins := .ref ⟨"v1/Service", ""⟩, type := "mytrait",
                            name := "", isOutputs := true }] }
        [⟨"v1/Service", "default", "svc1", [(TraitTypeLabel, "mytrait")],
          [("kind", JVal.str "Service")]⟩]
        "default" =
      .ok [(OutputsFieldName, JVal.obj [("", JVal.obj [("kind", JVal.str "Service")])])] := by
  rfl

/-- C1 amended: the workload-variant context builder rejects every
`AuxiliaryWorkload`-typed auxiliary with an empty name (regardless of
`IsOutputs`): a successful build implies all such auxiliaries are named, and
reaching an empty-named one yields exactly the ConfigError message. The
trait-variant builder performs no such check: a type-matching
`IsOutputs=true` auxiliary with empty name whose resolution succeeds is
stored in `root.outputs` under the empty name. -/
theorem aux_empty_name_config_error_amended :
    (∀ (ctx : ProcessCtx) (cli : Client) (ns : String) (root' : JObj),
      wdGetTemplateContext ctx cli ns = .ok root' →
      ∀ a ∈ ctx.auxiliaries, a.type = AuxiliaryWorkload → a.name ≠ "") ∧
    (∀ (cli : Client) (ns : String) (common : SMap) (root : JObj)
        (a : Auxiliary) (rest : List Auxiliary),
      a.type = AuxiliaryWorkload → a.name = "" →
      wdAuxLoop cli ns common root (a :: rest) =
        .error "the auxiliary of workload must have a name with format \x27outputs.<my-name>\x27") ∧
    (∀ (tdName : String) (bl : SMap) (b : Option Value) (a : Auxiliary)
        (cli : Client) (ns : String) (ref : UnstrRef) (o : JObj),
      a.type = tdName → a.isOutputs = true → a.name = "" →
      unstructured a.ins = .ok ref →
      (getResourceFromObj ref cli ns
          (mergeMapOverrideWithDst [(TraitTypeLabel, a.type)]
            (buildRootAndCommon bl).2) "").1 = .ok o →
      ∃ root', tdGetTemplateContext tdName
          { baseContextLabels := bl, base := b, auxiliaries := [a] } cli ns = .ok root' ∧
        alistLookup root' OutputsFieldName = some (.obj [("", .obj o)])) := by
  refine ⟨?_, ?_, ?_⟩
  · intro ctx cli ns root' h a ha hty
    simp only [wdGetTemplateContext] at h
    split at h
    · simp at h
    · split at h
      · simp at h
      · exact wdAuxLoop_names _ _ _ _ _ _ h a ha hty
  · intro cli ns common root a rest hty hname
    simp [wdAuxLoop, hty, hname, AuxiliaryWorkload]
  · intro tdName bl b a cli ns ref o hty hout hname href hres
    subst hty
    refine ⟨alistInsert (buildRootAndCommon bl).1 OutputsFieldName (.obj [(a.name, .obj o)]), ?_, ?_⟩
    · simp only [tdGetTemplateContext, ProcessCtx.output, tdAuxLoop, href]
      rw [if_neg (by simp), hname, hres]
      simp [hout, tdAuxLoop, hname]
    · rw [alistLookup_insert, if_pos rfl, hname]

/-- Witness for C1 amended: a named workload auxiliary passes the check, an
empty-named one hits the ConfigError, and the trait variant resolves an
empty-named `IsOutputs` auxiliary. -/
theorem aux_empty_name_config_error_amended_w :
    ({ ins := Value.ref ⟨"v1/Service", ""⟩, type := AuxiliaryWorkload, name := "out1",
       isOutputs := true : Auxiliary }.name ≠ "") ∧
    wdAuxLoop [] "d" [] []
        [{ ins := .ref ⟨"v1/Service", ""⟩, type := AuxiliaryWorkload, name := "",
           isOutputs := true }] =
      .error "the auxiliary of workload must have a name with format \x27outputs.<my-name>\x27" ∧
    (∃ root', tdGetTemplateContext "mytrait2"
        { baseContextLabels := [], base := none,
          auxiliaries := [{ ins := .ref ⟨"v1/Service", ""⟩, type := "mytrait2",
                            name := "", isOutputs := true }] }
        [⟨"v1/Service", "d", "svc", [(TraitTypeLabel, "mytrait2")],
          [("kind", JVal.str "Service")]⟩] "d" = .ok root' ∧
      alistLookup root' OutputsFieldName =
        some (.obj [("", .obj [("kind", JVal.str "Service")])])) := by
  refine ⟨?_, ?_, ?_⟩
  · exact aux_empty_name_config_error_amended.1
      { baseContextLabels := [], base := some (.ref ⟨"v1/Pod", "x"⟩),
        auxiliaries := [{ ins := .ref ⟨"v1/Service", ""⟩, type := AuxiliaryWorkload,
                          name := "out1", isOutputs := true }] }
      [⟨"v1/Pod", "d", "x", [], [("kind", JVal.str "Pod")]⟩,
       ⟨"v1/Service", "d", "s", [(TraitTypeLabel, AuxiliaryWorkload), (TraitResource, "out1")],
         [("kind", JVal.str "Service")]⟩]
      "d" _ rfl _ (List.Mem.head _) rfl
  · exact aux_empty_name_config_error_amended.2.1 [] "d" [] []
      { ins := .ref ⟨"v1/Service", ""⟩, type := AuxiliaryWorkload, name := "",
        isOutputs := true } [] rfl rfl
  · exact aux_empty_name_config_error_amended.2.2 "mytrait2" [] none
      { ins := .ref ⟨"v1/Service", ""⟩, type := "mytrait2", name := "", isOutputs := true }
      [⟨"v1/Service", "d", "svc", [(TraitTypeLabel, "mytrait2")],
        [("kind", JVal.str "Service")]⟩] "d" ⟨"v1/Service", ""⟩
      [("kind", JVal.str "Service")] rfl rfl rfl rfl rfl

/-- The root map built from the base-context labels binds exactly the
base-context keys, each to its (stringified) base-context value. -/
theorem buildRootAndCommon_root (l : SMap) (k : String) :
    alistLookup (buildRootAndCommon l).1 k = (alistLookup l k).map JVal.str := by
  induction l with
  | nil => simp [buildRootAndCommon, alistLookup]
  | cons hd tl ih =>
    obtain ⟨k0, v0⟩ := hd
    simp only [buildRootAndCommon, alistLookup_insert, alistLookup]
    by_cases h : k = k0 <;> simp [h, ih]

/-- The common-label map derives only from the two specially recognized
base-context keys: `appName` feeds the app-name label, `name` feeds the
component label, and nothing else is bound. -/
theorem buildRootAndCommon_common (l : SMap) (k : String) :
    alistLookup (buildRootAndCommon l).2 k =
      if k = LabelAppName then alistLookup l "appName"
      else if k = LabelAppComponent then alistLookup l "name"
      else none := by
  induction l with
  | nil =>
    simp only [buildRootAndCommon, alistLookup]
    split <;> try rfl
    split <;> rfl
  | cons hd tl ih =>
    obtain ⟨k0, v0⟩ := hd
    have hAC : ¬(LabelAppName = LabelAppComponent) := by decide
    simp only [buildRootAndCommon]
    by_cases h0 : k0 = "appName"
    · subst h0
      simp only [if_pos rfl, alistLookup_insert, ih, alistLookup]
      by_cases h1 : k = LabelAppName <;>
        simp [h1, alistLookup_insert, ih, alistLookup, hAC]
    · by_cases h0' : k0 = "name"
      · subst h0'
        have hne : ¬("name" = "appName") := by decide
        simp only [hne, if_false, if_pos rfl, alistLookup_insert, ih, alistLookup]
        by_cases h1 : k = LabelAppComponent
        · subst h1
          simp [hAC, alistLookup_insert, Ne.symm hAC]
        · by_cases h2 : k = LabelAppName
          · subst h2
            simp [h1, alistLookup_insert, ih, hAC, Ne.symm hAC]
          · simp [h1, h2, alistLookup_insert, ih]
      · simp only [h0, h0', if_false, ih, alistLookup]
        by_cases h1 : k = LabelAppName
        · simp [h1, Ne.symm h0, hAC]
        · by_cases h2 : k = LabelAppComponent <;>
            simp [h1, h2, Ne.symm h0', Ne.symm h0, hAC, Ne.symm hAC]

/-- The workload auxiliary loop touches only the `outputs` key of the root
context. -/
theorem wdAuxLoop_lookup_other (cli : Client) (ns : String) (common : SMap)
    (assists : List Auxiliary) :
    ∀ root root' : JObj, wdAuxLoop cli ns common root assists = .ok root' →
      ∀ k, k ≠ OutputsFieldName → alistLookup root' k = alistLookup root k := by
  induction assists with
  | nil =>
    intro root root' h k _
    simp only [wdAuxLoop] at h
    cases h; rfl
  | cons a rest ih =>
    intro root root' h k hk
    simp only [wdAuxLoop] at h
    split at h
    · exact ih root root' h k hk
    · split at h
      · simp at h
      · split at h
        · simp at h
        · split at h
          · simp at h
          · rw [ih _ root' h k hk, alistLookup_insert, if_neg hk]

/-- The trait auxiliary loop touches only the `output` and `outputs` keys of
the root context. -/
theorem tdAuxLoop_lookup_other (tdName : String) (cli : Client) (ns : String) (common : SMap)
    (assists : List Auxiliary) :
    ∀ root root' : JObj, tdAuxLoop tdName cli ns common root assists = .ok root' →
      ∀ k, k ≠ OutputFieldName → k ≠ OutputsFieldName → alistLookup root' k = alistLookup root k := by
  induction assists with
  | nil =>
    intro root root' h k _ _
    simp only [tdAuxLoop] at h
    cases h; rfl
  | cons a rest ih =>
    intro root root' h k hk1 hk2
    simp only [tdAuxLoop] at h
    split at h
    · exact ih root root' h k hk1 hk2
    · split at h
      · simp at h
      · split at h
        · simp at h
        · split at h
          · rw [ih _ root' h k hk1 hk2, alistLookup_insert, if_neg hk2]
          · rw [ih _ root' h k hk1 hk2, alistLookup_insert, if_neg hk1]

/-- When no auxiliary is `AuxiliaryWorkload`-typed the workload auxiliary
loop leaves the root context untouched. -/
theorem wdAuxLoop_skip (cli : Client) (ns : String) (common : SMap)
    (assists : List Auxiliary) (h : ∀ a ∈ assists, a.type ≠ AuxiliaryWorkload) :
    ∀ root : JObj, wdAuxLoop cli ns common root assists = .ok root := by
  induction assists with
  | nil => intro root; rfl
  | cons hd rest ih =>
    intro root
    have hhd : hd.type ≠ AuxiliaryWorkload := h hd (List.Mem.head _)
    simp only [wdAuxLoop, if_pos hhd]
    exact ih (fun a ha => h a (List.mem_cons_of_mem _ ha)) root

/-- After a successful workload auxiliary loop with at least one
`AuxiliaryWorkload`-typed auxiliary, `root.outputs` holds exactly the
single-entry map for the last such auxiliary. -/
theorem wdAuxLoop_outputs_last (cli : Client) (ns : String) (common : SMap)
    (assists : List Auxiliary) :
    ∀ (root root' : JObj) (lastA : Auxiliary),
      wdAuxLoop cli ns common root assists = .ok root' →
      (assists.filter (fun a => a.type == AuxiliaryWorkload)).getLast? = some lastA →
      ∃ ref o, unstructured lastA.ins = .ok ref ∧
        (getResourceFromObj ref cli ns
            (mergeMapOverrideWithDst [(TraitTypeLabel, AuxiliaryWorkload)] common)
            lastA.name).1 = .ok o ∧
        alistLookup root' OutputsFieldName = some (.obj [(lastA.name, .obj o)]) := by
  induction assists with
  | nil => intro root root' lastA _ hlast; simp at hlast
  | cons hd rest ih =>
    intro root root' lastA h hlast
    by_cases hhd : hd.type = AuxiliaryWorkload
    · rw [List.filter_cons_of_pos (by simpa using hhd)] at hlast
      simp only [wdAuxLoop, hhd, ne_eq, not_true_eq_false, if_false] at h
      by_cases hn : hd.name = ""
      · rw [if_pos hn] at h; simp at h
      · rw [if_neg hn] at h
        split at h
        · simp at h
        · rename_i traitRef h1
          split at h
          · simp at h
          · rename_i object h2
            rcases hrest : rest.filter (fun a => a.type == AuxiliaryWorkload) with _ | ⟨b, t⟩
            · have hall : ∀ a ∈ rest, a.type ≠ AuxiliaryWorkload := by
                intro a ha
                have := List.filter_eq_nil_iff.mp hrest a ha
                simpa using this
              have hroot := wdAuxLoop_skip cli ns common rest hall
                (alistInsert root OutputsFieldName (.obj [(hd.name, .obj object)]))
              rw [hroot] at h
              cases h
              rw [hrest] at hlast
              simp only [List.getLast?_singleton, Option.some.injEq] at hlast
              subst hlast
              exact ⟨traitRef, object, h1, h2, by rw [alistLookup_insert, if_pos rfl]⟩
            · rw [hrest, List.getLast?_cons_cons, ← hrest] at hlast
              exact ih _ root' lastA h hlast
    · rw [List.filter_cons_of_neg (by simpa using hhd)] at hlast
      simp only [wdAuxLoop, if_pos hhd] at h
      exact ih root root' lastA h hlast

/-- When no auxiliary matches the trait's name with `IsOutputs=true`, the
trait auxiliary loop leaves the `outputs` key of the root untouched. -/
theorem tdAuxLoop_outputs_preserve (tdName : String) (cli : Client) (ns : String)
    (common : SMap) (assists : List Auxiliary)
    (hno : ∀ a ∈ assists, ¬(a.type = tdName ∧ a.isOutputs = true)) :
    ∀ root root' : JObj, tdAuxLoop tdName cli ns common root assists = .ok root' →
      alistLookup root' OutputsFieldName = alistLookup root OutputsFieldName := by
  induction assists with
  | nil =>
    intro root root' h
    simp only [tdAuxLoop] at h
    cases h; rfl
  | cons hd rest ih =>
    intro root root' h
    have ih' := ih (fun a ha => hno a (List.mem_cons_of_mem _ ha))
    simp only [tdAuxLoop] at h
    by_cases hhd : hd.type = tdName
    · simp only [hhd, ne_eq, not_true_eq_false, if_false] at h
      split at h
      · simp at h
      · split at h
        · simp at h
        · have hnotout : hd.isOutputs = false := by
            cases hb : hd.isOutputs with
            | false => rfl
            | true => exact absurd ⟨hhd, hb⟩ (hno hd (List.Mem.head _))
          rw [if_neg (by simp [hnotout])] at h
          rw [ih' _ root' h, alistLookup_insert,
            if_neg (by decide : ¬(OutputsFieldName = OutputFieldName))]
    · rw [if_pos hhd] at h
      exact ih' root root' h

/-- After a successful trait auxiliary loop with at least one type-matching
`IsOutputs=true` auxiliary, `root.outputs` holds exactly the single-entry
map for the last such auxiliary. -/
theorem tdAuxLoop_outputs_last (tdName : String) (cli : Client) (ns : String)
    (common : SMap) (assists : List Auxiliary) :
    ∀ (root root' : JObj) (lastA : Auxiliary),
      tdAuxLoop tdName cli ns common root assists = .ok root' →
      (assists.filter (fun a => a.type == tdName && a.isOutputs)).getLast? = some lastA →
      ∃ ref o, unstructured lastA.ins = .ok ref ∧
        (getResourceFromObj ref cli ns
            (mergeMapOverrideWithDst [(TraitTypeLabel, lastA.type)] common)
            lastA.name).1 = .ok o ∧
        alistLookup root' OutputsFieldName = some (.obj [(lastA.name, .obj o)]) := by
  induction assists with
  | nil => intro root root' lastA _ hlast; simp at hlast
  | cons hd rest ih =>
    intro root root' lastA h hlast
    simp only [tdAuxLoop] at h
    by_cases hhd : hd.type = tdName
    · simp only [hhd, ne_eq, not_true_eq_false, if_false] at h
      split at h
      · simp at h
      · rename_i traitRef h1
        split at h
        · simp at h
        · rename_i object h2
          by_cases hout : hd.isOutputs = true
          · rw [List.filter_cons_of_pos (by simp [hhd, hout])] at hlast
            rw [if_pos hout] at h
            rcases hrest : rest.filter (fun a => a.type == tdName && a.isOutputs) with _ | ⟨b, t⟩
            · have hall : ∀ a ∈ rest, ¬(a.type = tdName ∧ a.isOutputs = true) := by
                intro a ha hcontra
                have := List.filter_eq_nil_iff.mp hrest a ha
                simp [hcontra.1, hcontra.2] at this
              have hpres := tdAuxLoop_outputs_preserve tdName cli ns common rest hall
                _ root' h
              rw [hrest] at hlast
              simp only [List.getLast?_singleton, Option.some.injEq] at hlast
              subst hlast
              refine ⟨traitRef, object, h1, by rw [hhd]; exact h2, ?_⟩
              rw [hpres, alistLookup_insert, if_pos rfl]
            · rw [hrest, List.getLast?_cons_cons, ← hrest] at hlast
              exact ih _ root' lastA h hlast
          · rw [List.filter_cons_of_neg (by simp [hout])] at hlast
            rw [if_neg hout] at h
            exact ih _ root' lastA h hlast
    · rw [if_pos hhd] at h
      rw [List.filter_cons_of_neg (by simp [hhd])] at hlast
      exact ih root root' lastA h hlast

/-- C3: after a successful template-context build with two or more
`AuxiliaryWorkload`-typed auxiliaries (workload variant) or two or more
type-matching `IsOutputs` auxiliaries (trait variant), `root.outputs` equals
the single-entry map for the last-processed such auxiliary only: every
iteration overwrites `root.outputs` instead of merging. -/
theorem root_outputs_overwrite_last :
    (∀ (ctx : ProcessCtx) (cli : Client) (ns : String) (root' : JObj) (lastA : Auxiliary),
      wdGetTemplateContext ctx cli ns = .ok root' →
      2 ≤ (ctx.auxiliaries.filter (fun a => a.type == AuxiliaryWorkload)).length →
      (ctx.auxiliaries.filter (fun a => a.type == AuxiliaryWorkload)).getLast? = some lastA →
      ∃ ref o, unstructured lastA.ins = .ok ref ∧
        (getResourceFromObj ref cli ns
            (mergeMapOverrideWithDst [(TraitTypeLabel, AuxiliaryWorkload)]
              (buildRootAndCommon ctx.baseContextLabels).2)
            lastA.name).1 = .ok o ∧
        alistLookup root' OutputsFieldName = some (.obj [(lastA.name, .obj o)])) ∧
    (∀ (tdName : String) (ctx : ProcessCtx) (cli : Client) (ns : String) (root' : JObj)
        (lastA : Auxiliary),
      tdGetTemplateContext tdName ctx cli ns = .ok root' →
      2 ≤ (ctx.auxiliaries.filter (fun a => a.type == tdName && a.isOutputs)).length →
      (ctx.auxiliaries.filter (fun a => a.type == tdName && a.isOutputs)).getLast? = some lastA →
      ∃ ref o, unstructured lastA.ins = .ok ref ∧
        (getResourceFromObj ref cli ns
            (mergeMapOverrideWithDst [(TraitTypeLabel, lastA.type)]
              (buildRootAndCommon ctx.baseContextLabels).2)
            lastA.name).1 = .ok o ∧
        alistLookup root' OutputsFieldName = some (.obj [(lastA.name, .obj o)])) := by
  constructor
  · intro ctx cli ns root' lastA h _ hlast
    simp only [wdGetTemplateContext] at h
    split at h
    · simp at h
    · split at h
      · simp at h
      · exact wdAuxLoop_outputs_last _ _ _ _ _ _ _ h hlast
  · intro tdName ctx cli ns root' lastA h _ hlast
    simp only [tdGetTemplateContext] at h
    exact tdAuxLoop_outputs_last _ _ _ _ _ _ _ _ h hlast

/-- Witness for C3: two workload auxiliaries `out1`/`out2` and two trait
auxiliaries `c1`/`c2`, all resolving — only the last of each survives into
`root.outputs`. -/
theorem root_outputs_overwrite_last_w :
    (∃ ref o, unstructured (Value.ref ⟨"v1/Service", ""⟩) = .ok ref ∧
      (getResourceFromObj ref
          [⟨"v1/Pod", "d", "x", [], [("kind", JVal.str "Pod")]⟩,
           ⟨"v1/Service", "d", "s1", [(TraitTypeLabel, AuxiliaryWorkload), (TraitResource, "out1")],
             [("n", JVal.str "S1")]⟩,
           ⟨"v1/Service", "d", "s2", [(TraitTypeLabel, AuxiliaryWorkload), (TraitResource, "out2")],
             [("n", JVal.str "S2")]⟩] "d"
          (mergeMapOverrideWithDst [(TraitTypeLabel, AuxiliaryWorkload)]
            (buildRootAndCommon []).2) "out2").1 = .ok o ∧
      alistLookup [("output", JVal.obj [("kind", JVal.str "Pod")]),
          ("outputs", JVal.obj [("out2", JVal.obj [("n", JVal.str "S2")])])]
        OutputsFieldName = some (.obj [("out2", .obj o)])) ∧
    (∃ ref o, unstructured (Value.ref ⟨"v1/ConfigMap", ""⟩) = .ok ref ∧
      (getResourceFromObj ref
          [⟨"v1/ConfigMap", "d", "m1", [(TraitTypeLabel, "t"), (TraitResource, "c1")],
             [("n", JVal.str "M1")]⟩,
           ⟨"v1/ConfigMap", "d", "m2", [(TraitTypeLabel, "t"), (TraitResource, "c2")],
             [("n", JVal.str "M2")]⟩] "d"
          (mergeMapOverrideWithDst [(TraitTypeLabel, "t")]
            (buildRootAndCommon []).2) "c2").1 = .ok o ∧
      alistLookup [("outputs", JVal.obj [("c2", JVal.obj [("n", JVal.str "M2")])])]
        OutputsFieldName = some (.obj [("c2", .obj o)])) := by
  constructor
  · exact root_outputs_overwrite_last.1
      { baseContextLabels := [], base := some (.ref ⟨"v1/Pod", "x"⟩),
        auxiliaries := [
          { ins := .ref ⟨"v1/Service", ""⟩, type := AuxiliaryWorkload, name := "out1",
            isOutputs := true },
          { ins := .ref ⟨"v1/Service", ""⟩, type := AuxiliaryWorkload, name := "out2",
            isOutputs := true }] }
      [⟨"v1/Pod", "d", "x", [], [("kind", JVal.str "Pod")]⟩,
       ⟨"v1/Service", "d", "s1", [(TraitTypeLabel, AuxiliaryWorkload), (TraitResource, "out1")],
         [("n", JVal.str "S1")]⟩,
       ⟨"v1/Service", "d", "s2", [(TraitTypeLabel, AuxiliaryWorkload), (TraitResource, "out2")],
         [("n", JVal.str "S2")]⟩] "d"
      [("output", JVal.obj [("kind", JVal.str "Pod")]),
       ("outputs", JVal.obj [("out2", JVal.obj [("n", JVal.str "S2")])])]
      { ins := .ref ⟨"v1/Service", ""⟩, type := AuxiliaryWorkload, name := "out2",
        isOutputs := true }
      rfl (by decide) rfl
  · exact root_outputs_overwrite_last.2 "t"
      { baseContextLabels := [], base := none,
        auxiliaries := [
          { ins := .ref ⟨"v1/ConfigMap", ""⟩, type := "t", name := "c1", isOutputs := true },
          { ins := .ref ⟨"v1/ConfigMap", ""⟩, type := "t", name := "c2", isOutputs := true }] }
      [⟨"v1/ConfigMap", "d", "m1", [(TraitTypeLabel, "t"), (TraitResource, "c1")],
         [("n", JVal.str "M1")]⟩,
       ⟨"v1/ConfigMap", "d", "m2", [(TraitTypeLabel, "t"), (TraitResource, "c2")],
         [("n", JVal.str "M2")]⟩] "d"
      [("outputs", JVal.obj [("c2", JVal.obj [("n", JVal.str "M2")])])]
      { ins := .ref ⟨"v1/ConfigMap", ""⟩, type := "t", name := "c2", isOutputs := true }
      rfl (by decide) rfl

/-- C8: both template-context builders copy every base-context key verbatim
into the root context (all keys other than the `output`/`outputs` keys the
builders themselves assign read back the base-context value), and the
common-label map used for live-resource resolution derives only from the
`appName` and `name` base-context keys. -/
theorem root_copy_and_common_labels :
    (∀ (ctx : ProcessCtx) (cli : Client) (ns : String) (root' : JObj),
      wdGetTemplateContext ctx cli ns = .ok root' →
      ∀ k, k ≠ OutputFieldName → k ≠ OutputsFieldName →
        alistLookup root' k = (alistLookup ctx.baseContextLabels k).map JVal.str) ∧
    (∀ (tdName : String) (ctx : ProcessCtx) (cli : Client) (ns : String) (root' : JObj),
      tdGetTemplateContext tdName ctx cli ns = .ok root' →
      ∀ k, k ≠ OutputFieldName → k ≠ OutputsFieldName →
        alistLookup root' k = (alistLookup ctx.baseContextLabels k).map JVal.str) ∧
    (∀ (l : SMap) (k : String),
      alistLookup (buildRootAndCommon l).2 k =
        if k = LabelAppName then alistLookup l "appName"
        else if k = LabelAppComponent then alistLookup l "name"
        else none) := by
  refine ⟨?_, ?_, buildRootAndCommon_common⟩
  · intro ctx cli ns root' h k hk1 hk2
    simp only [wdGetTemplateContext] at h
    split at h
    · simp at h
    · split at h
      · simp at h
      · rw [wdAuxLoop_lookup_other _ _ _ _ _ _ h k hk2, alistLookup_insert, if_neg hk1,
          buildRootAndCommon_root]
  · intro tdName ctx cli ns root' h k hk1 hk2
    simp only [tdGetTemplateContext] at h
    rw [tdAuxLoop_lookup_other _ _ _ _ _ _ _ h k hk1 hk2, buildRootAndCommon_root]

/-- Witness for C8: a concrete successful workload context build carrying the
base-context key `replicas` verbatim, with common labels derived from
`appName`/`name` only. -/
theorem root_copy_and_common_labels_w :
    alistLookup
        [("replicas", JVal.str "3"), ("name", JVal.str "comp"),
         ("appName", JVal.str "app"),
         (OutputFieldName, JVal.obj [("kind", JVal.str "Pod")])] "replicas" =
      (alistLookup [("appName", "app"), ("name", "comp"), ("replicas", "3")] "replicas").map
        JVal.str ∧
    alistLookup
        (buildRootAndCommon [("appName", "app"), ("name", "comp"), ("replicas", "3")]).2
        "replicas" = none := by
  have h1 := (root_copy_and_common_labels.1
    { baseContextLabels := [("appName", "app"), ("name", "comp"), ("replicas", "3")],
      base := some (.ref ⟨"v1/Pod", "x"⟩) }
    [⟨"v1/Pod", "default", "x", [], [("kind", JVal.str "Pod")]⟩] "default"
    [("replicas", JVal.str "3"), ("name", JVal.str "comp"),
     ("appName", JVal.str "app"),
     (OutputFieldName, JVal.obj [("kind", JVal.str "Pod")])]
    (by rfl) "replicas" (by decide) (by decide))
  have h2 := root_copy_and_common_labels.2.2
    [("appName", "app"), ("name", "comp"), ("replicas", "3")] "replicas"
  exact ⟨h1, by rw [h2]; rfl⟩

/-- An absent field does not exist. -/
theorem existsb_absent : Value.absent.existsb = false := rfl

/-- A value whose wrap succeeds wraps to itself. -/
theorem newOther_ok (v : Value) (h : ∃ w, newOther v = .ok w) : newOther v = .ok v := by
  cases v <;> simp [newOther] at h ⊢

/-- The outputs registration loop only appends auxiliaries: the base and the
base-context labels are untouched. -/
theorem registerOutputs_frame (mkErr : String → String → String) (auxType : String)
    (fields : List FieldInfo) :
    ∀ ctx ctx', registerOutputs mkErr auxType fields ctx = .ok ctx' →
      ctx'.base = ctx.base ∧ ctx'.baseContextLabels = ctx.baseContextLabels ∧
      ∃ added, ctx'.auxiliaries = ctx.auxiliaries ++ added := by
  induction fields with
  | nil =>
    intro ctx ctx' h
    cases h
    exact ⟨rfl, rfl, [], by simp⟩
  | cons f fs ih =>
    intro ctx ctx' h
    simp only [registerOutputs] at h
    split at h
    · exact ih ctx ctx' h
    · split at h
      · simp at h
      · rename_i w hw
        obtain ⟨hb, hl, added, ha⟩ := ih _ ctx' h
        refine ⟨hb, hl,
          ({ ins := w, type := auxType, name := f.name, isOutputs := true } : Auxiliary) :: added, ?_⟩
        rw [ha]
        simp [ProcessCtx.putAuxiliary]

/-- When every kept (unflagged) field wraps successfully, the outputs
registration loop appends exactly one `IsOutputs` auxiliary per kept field,
in declaration order, and none for the flagged fields. -/
theorem registerOutputs_ok (mkErr : String → String → String) (auxType : String)
    (fields : List FieldInfo) :
    ∀ ctx : ProcessCtx,
      (∀ f ∈ fields.filter (fun f => !(f.isDefinition || f.isHidden || f.isOptional)),
        ∃ w, newOther f.value = .ok w) →
      registerOutputs mkErr auxType fields ctx = .ok
        { ctx with auxiliaries := (ctx.auxiliaries ++
            (fields.filter (fun f => !(f.isDefinition || f.isHidden || f.isOptional))).map
              (fun f => { ins := f.value, type := auxType, name := f.name, isOutputs := true })) } := by
  induction fields with
  | nil => intro ctx _; simp [registerOutputs]
  | cons f fs ih =>
    intro ctx h
    by_cases hf : (f.isDefinition || f.isHidden || f.isOptional) = true
    · rw [List.filter_cons_of_neg (by simp [hf])] at h ⊢
      simp only [registerOutputs, if_pos hf]
      exact ih ctx h
    · have hf' : ¬(f.isDefinition || f.isHidden || f.isOptional) = true := hf
      rw [List.filter_cons_of_pos (by simp [Bool.not_eq_true] at hf'; simp [hf'])] at h ⊢
      have hw := newOther_ok f.value (h f (List.mem_cons_self _ _))
      simp only [registerOutputs, if_neg hf', hw]
      have := ih (ctx.putAuxiliary
        { ins := f.value, type := auxType, name := f.name, isOutputs := true })
        (fun g hg => h g (List.mem_cons_of_mem _ hg))
      rw [this]
      simp [ProcessCtx.putAuxiliary]

/-- A wrap failure on the first kept field that fails aborts the outputs
registration loop with the error built from that field's name. -/
theorem registerOutputs_err (mkErr : String → String → String) (auxType : String)
    (pre : List FieldInfo) (f : FieldInfo) (post : List FieldInfo) (e : String)
    (hf : (f.isDefinition || f.isHidden || f.isOptional) = false)
    (hfail : newOther f.value = .error e) :
    ∀ ctx : ProcessCtx,
      (∀ g ∈ pre.filter (fun g => !(g.isDefinition || g.isHidden || g.isOptional)),
        ∃ w, newOther g.value = .ok w) →
      registerOutputs mkErr auxType (pre ++ f :: post) ctx = .error (mkErr f.name e) := by
  induction pre with
  | nil =>
    intro ctx _
    simp [registerOutputs, hf, hfail]
  | cons g gs ih =>
    intro ctx h
    by_cases hg : (g.isDefinition || g.isHidden || g.isOptional) = true
    · rw [List.filter_cons_of_neg (by simp [hg])] at h
      simp only [List.cons_append, registerOutputs, if_pos hg]
      exact ih ctx h
    · have hg' : ¬(g.isDefinition || g.isHidden || g.isOptional) = true := hg
      rw [List.filter_cons_of_pos (by simp [Bool.not_eq_true] at hg'; simp [hg'])] at h
      have hw := newOther_ok g.value (h g (List.mem_cons_self _ _))
      simp only [List.cons_append, registerOutputs, if_neg hg', hw]
      exact ih _ (fun x hx => h x (List.mem_cons_of_mem _ hx))

/-- C5: when the `outputs` field evaluates to a structured record, `Complete`
(workload or trait) registers exactly one `IsOutputs=true` auxiliary per
declared field not flagged definition/hidden/optional, named after the field,
in declaration order, and none for the flagged fields; a wrap failure on a
kept field aborts the whole call with an error carrying that field's name. -/
theorem outputs_filtering_registration :
    (∀ (wdName : String) (inst : Instance) (ctx : ProcessCtx) (b : Value)
        (fields : List FieldInfo),
      inst.err = none → newBase inst.output = .ok b → inst.outputsStruct = .ok fields →
      (∀ f ∈ fields.filter (fun f => !(f.isDefinition || f.isHidden || f.isOptional)),
        ∃ w, newOther f.value = .ok w) →
      workloadComplete wdName [inst] ctx = .ok
        { ctx with
            base := some b
            auxiliaries := (ctx.auxiliaries ++
              (fields.filter (fun f => !(f.isDefinition || f.isHidden || f.isOptional))).map
                (fun f => { ins := f.value, type := AuxiliaryWorkload, name := f.name,
                            isOutputs := true })) }) ∧
    (∀ (wdName : String) (inst : Instance) (ctx : ProcessCtx) (b : Value)
        (pre post : List FieldInfo) (f : FieldInfo) (e : String),
      inst.err = none → newBase inst.output = .ok b →
      inst.outputsStruct = .ok (pre ++ f :: post) →
      (∀ g ∈ pre.filter (fun g => !(g.isDefinition || g.isHidden || g.isOptional)),
        ∃ w, newOther g.value = .ok w) →
      (f.isDefinition || f.isHidden || f.isOptional) = false →
      newOther f.value = .error e →
      workloadComplete wdName [inst] ctx =
        .error ("parse WorkloadDefinition " ++ wdName ++ " outputs(" ++ f.name ++ "): " ++ e)) ∧
    (∀ (tdName : String) (proc : Instance → Except String Instance)
        (unify : Value → Value → Except String Value) (inst : Instance) (ctx : ProcessCtx)
        (fields : List FieldInfo),
      inst.err = none → inst.processingExists = false → inst.output = .absent →
      inst.patch = .absent → inst.outputsStruct = .ok fields →
      (∀ f ∈ fields.filter (fun f => !(f.isDefinition || f.isHidden || f.isOptional)),
        ∃ w, newOther f.value = .ok w) →
      traitComplete tdName proc unify [inst] ctx = .ok
        { ctx with auxiliaries := (ctx.auxiliaries ++
            (fields.filter (fun f => !(f.isDefinition || f.isHidden || f.isOptional))).map
              (fun f => { ins := f.value, type := tdName, name := f.name,
                          isOutputs := true })) }) ∧
    (∀ (tdName : String) (proc : Instance → Except String Instance)
        (unify : Value → Value → Except String Value) (inst : Instance) (ctx : ProcessCtx)
        (pre post : List FieldInfo) (f : FieldInfo) (e : String),
      inst.err = none → inst.processingExists = false → inst.output = .absent →
      inst.outputsStruct = .ok (pre ++ f :: post) →
      (∀ g ∈ pre.filter (fun g => !(g.isDefinition || g.isHidden || g.isOptional)),
        ∃ w, newOther g.value = .ok w) →
      (f.isDefinition || f.isHidden || f.isOptional) = false →
      newOther f.value = .error e →
      traitComplete tdName proc unify [inst] ctx =
        .error ("traitDef " ++ tdName ++ " new Assists(" ++ f.name ++ "): " ++ e)) := by
  refine ⟨?_, ?_, ?_, ?_⟩
  · intro wdName inst ctx b fields herr hb houts hok
    simp only [workloadComplete, herr, hb, houts]
    rw [registerOutputs_ok _ _ _ _ hok]
    simp [workloadComplete, ProcessCtx.setBase]
  · intro wdName inst ctx b pre post f e herr hb houts hpre hf hfail
    simp only [workloadComplete, herr, hb, houts]
    rw [registerOutputs_err _ _ _ _ _ _ hf hfail _ hpre]
  · intro tdName proc unify inst ctx fields herr hproc houtp hpatch houts hok
    simp only [traitComplete, herr, hproc, houtp, hpatch, houts, existsb_absent,
      Bool.false_eq_true, if_false]
    rw [registerOutputs_ok _ _ _ _ hok]
  · intro tdName proc unify inst ctx pre post f e herr hproc houtp houts hpre hf hfail
    simp only [traitComplete, herr, hproc, houtp, houts, existsb_absent,
      Bool.false_eq_true, if_false]
    rw [registerOutputs_err _ _ _ _ _ _ hf hfail _ hpre]

/-- C6: a successful workload `Complete` installs the wrapped `output` field
as the execution context's Base, replacing any prior Base; a successful trait
`Complete` (without pre-processing or patch) leaves the Base untouched and,
when its template has an `output` field, registers it as the Auxiliary
`{Type: trait name, Name: "", IsOutputs: false}`. -/
theorem output_base_vs_aux :
    (∀ (wdName : String) (inst : Instance) (ctx ctx' : ProcessCtx),
      workloadComplete wdName [inst] ctx = .ok ctx' →
      ∃ b, newBase inst.output = .ok b ∧ ctx'.base = some b) ∧
    (∀ (tdName : String) (proc : Instance → Except String Instance)
        (unify : Value → Value → Except String Value) (inst : Instance) (ctx ctx' : ProcessCtx),
      inst.processingExists = false → inst.patch = .absent →
      traitComplete tdName proc unify [inst] ctx = .ok ctx' →
      ctx'.base = ctx.base ∧
      (inst.output.existsb = true →
        ∃ w more, newOther inst.output = .ok w ∧
          ctx'.auxiliaries = ctx.auxiliaries ++
            ({ ins := w, type := tdName, name := "", isOutputs := false } :: more))) := by
  constructor
  · intro wdName inst ctx ctx' h
    simp only [workloadComplete] at h
    split at h
    · simp at h
    · split at h
      · simp at h
      · rename_i b hb
        split at h
        · simp only [Except.ok.injEq] at h
          subst h
          exact ⟨b, hb, rfl⟩
        · rename_i fields hfields
          split at h
          · simp at h
          · rename_i ctx2 hreg
            simp only [Except.ok.injEq] at h
            subst h
            obtain ⟨hbase, _, _⟩ := registerOutputs_frame _ _ _ _ _ hreg
            exact ⟨b, hb, by rw [hbase]; rfl⟩
  · intro tdName proc unify inst ctx ctx' hproc hpatch h
    simp only [traitComplete, hproc, hpatch, existsb_absent, Bool.false_eq_true,
      if_false] at h
    split at h
    · simp at h
    · cases houtp : inst.output.existsb
      · simp only [houtp, Bool.false_eq_true, if_false] at h
        split at h
        · simp at h
        · rename_i ctx2 hstep3
          simp only [Except.ok.injEq] at h
          subst h
          refine ⟨?_, fun hc => Bool.noConfusion hc⟩
          split at hstep3
          · simp only [Except.ok.injEq] at hstep3
            subst hstep3
            rfl
          · rename_i fields hfields
            obtain ⟨hbase, _, _⟩ := registerOutputs_frame _ _ _ _ _ hstep3
            exact hbase
      · simp only [houtp, eq_self_iff_true, if_true] at h
        split at h
        · simp at h
        · rename_i ctx2 hstep2
          split at h
          · simp at h
          · rename_i ctx3 hstep3
            simp only [Except.ok.injEq] at h
            subst h
            split at hstep2
            · simp at hstep2
            · rename_i w hw
              simp only [Except.ok.injEq] at hstep2
              subst hstep2
              split at hstep3
              · simp only [Except.ok.injEq] at hstep3
                subst hstep3
                exact ⟨rfl, fun _ => ⟨w, [], hw, by simp [ProcessCtx.putAuxiliary]⟩⟩
              · rename_i fields hfields
                obtain ⟨hbase, _, added, ha⟩ := registerOutputs_frame _ _ _ _ _ hstep3
                refine ⟨by rw [hbase]; rfl, fun _ => ⟨w, added, hw, ?_⟩⟩
                rw [ha]
                simp [ProcessCtx.putAuxiliary]

/-- Witness for C5: an `outputs` struct with three plain fields and two
flagged (hidden/optional) fields yields exactly three auxiliaries in
declaration order, for both renderers; a malformed field aborts with the
field name in the error. -/
theorem outputs_filtering_registration_w :
    workloadComplete "wd"
        [{ err := none, output := .ref ⟨"apps/v1/Deployment", "dp"⟩,
           outputsStruct := .ok [
             { name := "a", value := .ref ⟨"v1/ConfigMap", "x1"⟩ },
             { name := "b", value := .ref ⟨"v1/ConfigMap", "x2"⟩, isHidden := true },
             { name := "c", value := .ref ⟨"v1/ConfigMap", "x3"⟩ },
             { name := "d", value := .ref ⟨"v1/ConfigMap", "x4"⟩, isOptional := true },
             { name := "e", value := .ref ⟨"v1/ConfigMap", "x5"⟩ }] }]
        { baseContextLabels := [] } =
      .ok { baseContextLabels := [], base := some (.ref ⟨"apps/v1/Deployment", "dp"⟩),
            auxiliaries := [
              { ins := .ref ⟨"v1/ConfigMap", "x1"⟩, type := AuxiliaryWorkload, name := "a",
                isOutputs := true },
              { ins := .ref ⟨"v1/ConfigMap", "x3"⟩, type := AuxiliaryWorkload, name := "c",
                isOutputs := true },
              { ins := .ref ⟨"v1/ConfigMap", "x5"⟩, type := AuxiliaryWorkload, name := "e",
                isOutputs := true }] } ∧
    workloadComplete "wd"
        [{ err := none, output := .ref ⟨"apps/v1/Deployment", "dp"⟩,
           outputsStruct := .ok [{ name := "bad", value := .malformed "boom" }] }]
        { baseContextLabels := [] } =
      .error "parse WorkloadDefinition wd outputs(bad): boom" ∧
    traitComplete "tr" (fun i => .ok i) (fun b _ => .ok b)
        [{ err := none, output := .absent,
           outputsStruct := .ok [
             { name := "a", value := .ref ⟨"v1/ConfigMap", "x1"⟩ },
             { name := "b", value := .ref ⟨"v1/ConfigMap", "x2"⟩, isHidden := true },
             { name := "c", value := .ref ⟨"v1/ConfigMap", "x3"⟩ },
             { name := "d", value := .ref ⟨"v1/ConfigMap", "x4"⟩, isOptional := true },
             { name := "e", value := .ref ⟨"v1/ConfigMap", "x5"⟩ }] }]
        { baseContextLabels := [] } =
      .ok { baseContextLabels := [], base := none,
            auxiliaries := [
              { ins := .ref ⟨"v1/ConfigMap", "x1"⟩, type := "tr", name := "a",
                isOutputs := true },
              { ins := .ref ⟨"v1/ConfigMap", "x3"⟩, type := "tr", name := "c",
                isOutputs := true },
              { ins := .ref ⟨"v1/ConfigMap", "x5"⟩, type := "tr", name := "e",
                isOutputs := true }] } ∧
    traitComplete "tr" (fun i => .ok i) (fun b _ => .ok b)
        [{ err := none, output := .absent,
           outputsStruct := .ok [{ name := "bad", value := .malformed "boom" }] }]
        { baseContextLabels := [] } =
      .error "traitDef tr new Assists(bad): boom" := by
  refine ⟨?_, ?_, ?_, ?_⟩
  · have h := outputs_filtering_registration.1 "wd"
      { err := none, output := .ref ⟨"apps/v1/Deployment", "dp"⟩,
        outputsStruct := .ok [
          { name := "a", value := .ref ⟨"v1/ConfigMap", "x1"⟩ },
          { name := "b", value := .ref ⟨"v1/ConfigMap", "x2"⟩, isHidden := true },
          { name := "c", value := .ref ⟨"v1/ConfigMap", "x3"⟩ },
          { name := "d", value := .ref ⟨"v1/ConfigMap", "x4"⟩, isOptional := true },
          { name := "e", value := .ref ⟨"v1/ConfigMap", "x5"⟩ }] }
      { baseContextLabels := [] } (.ref ⟨"apps/v1/Deployment", "dp"⟩) _ rfl rfl rfl
      (by
        intro f hf
        rcases List.mem_filter.mp hf with ⟨hmem, _⟩
        fin_cases hmem <;> exact ⟨_, rfl⟩)
    rw [h]; rfl
  · have h := outputs_filtering_registration.2.1 "wd"
      { err := none, output := .ref ⟨"apps/v1/Deployment", "dp"⟩,
        outputsStruct := .ok [{ name := "bad", value := .malformed "boom" }] }
      { baseContextLabels := [] } (.ref ⟨"apps/v1/Deployment", "dp"⟩) [] []
      { name := "bad", value := .malformed "boom" } "boom" rfl rfl rfl
      (by intro g hg; exact absurd hg (by simp)) rfl rfl
    rw [h]; rfl
  · have h := outputs_filtering_registration.2.2.1 "tr" (fun i => .ok i) (fun b _ => .ok b)
      { err := none, output := .absent,
        outputsStruct := .ok [
          { name := "a", value := .ref ⟨"v1/ConfigMap", "x1"⟩ },
          { name := "b", value := .ref ⟨"v1/ConfigMap", "x2"⟩, isHidden := true },
          { name := "c", value := .ref ⟨"v1/ConfigMap", "x3"⟩ },
          { name := "d", value := .ref ⟨"v1/ConfigMap", "x4"⟩, isOptional := true },
          { name := "e", value := .ref ⟨"v1/ConfigMap", "x5"⟩ }] }
      { baseContextLabels := [] } _ rfl rfl rfl rfl rfl
      (by
        intro f hf
        rcases List.mem_filter.mp hf with ⟨hmem, _⟩
        fin_cases hmem <;> exact ⟨_, rfl⟩)
    rw [h]; rfl
  · have h := outputs_filtering_registration.2.2.2 "tr" (fun i => .ok i) (fun b _ => .ok b)
      { err := none, output := .absent,
        outputsStruct := .ok [{ name := "bad", value := .malformed "boom" }] }
      { baseContextLabels := [] } [] [] { name := "bad", value := .malformed "boom" } "boom"
      rfl rfl rfl rfl (by intro g hg; exact absurd hg (by simp)) rfl rfl
    rw [h]; rfl

/-- Witness for C6: the workload render replaces a prior Base with the new
`output`; the trait render keeps the prior Base and registers its `output`
as the unnamed non-outputs auxiliary. -/
theorem output_base_vs_aux_w :
    (∃ b, newBase (Value.ref ⟨"apps/v1/Deployment", "dp"⟩) = .ok b ∧
      (some (Value.ref ⟨"apps/v1/Deployment", "dp"⟩) : Option Value) = some b) ∧
    ((some (Value.ref ⟨"v1/Old", "o"⟩) : Option Value) = some (Value.ref ⟨"v1/Old", "o"⟩) ∧
      ((Value.ref ⟨"v1/Secret", ""⟩).existsb = true →
        ∃ w more, newOther (Value.ref ⟨"v1/Secret", ""⟩) = .ok w ∧
          ([{ ins := Value.ref ⟨"v1/Secret", ""⟩, type := "tr", name := "",
              isOutputs := false }] : List Auxiliary) =
            [] ++ ({ ins := w, type := "tr", name := "", isOutputs := false } :: more))) := by
  constructor
  · exact output_base_vs_aux.1 "wd"
      { err := none, output := .ref ⟨"apps/v1/Deployment", "dp"⟩ }
      { baseContextLabels := [], base := some (.ref ⟨"v1/Old", "o"⟩) }
      { baseContextLabels := [], base := some (.ref ⟨"apps/v1/Deployment", "dp"⟩) }
      rfl
  · exact output_base_vs_aux.2 "tr" (fun i => .ok i) (fun b _ => .ok b)
      { output := .ref ⟨"v1/Secret", ""⟩ }
      { baseContextLabels := [], base := some (.ref ⟨"v1/Old", "o"⟩) }
      { baseContextLabels := [], base := some (.ref ⟨"v1/Old", "o"⟩),
        auxiliaries := [{ ins := .ref ⟨"v1/Secret", ""⟩, type := "tr", name := "",
                          isOutputs := false }] }
      rfl rfl rfl

/-- C7: the expression evaluator consults the runtime on exactly the source
text `"context: " ++ serializedContext ++ "\n" ++ template` (runtimes that
agree on that one string produce identical results), extracts `isHealth` as
a boolean for health and `message` as a string for status, and returns an
error — never a default verdict — on a compile failure, a missing field, or
a kind mismatch. -/
theorem expression_eval_source_and_extract (r r2 : CueRuntime) (tctx : JObj)
    (tmpl : String) (hne : tmpl ≠ "") :
    (r.compile ("context: " ++ renderJObj tctx ++ "\n" ++ tmpl) =
        r2.compile ("context: " ++ renderJObj tctx ++ "\n" ++ tmpl) →
      checkHealth r tctx tmpl = checkHealth r2 tctx tmpl ∧
      getStatusMessage r tctx tmpl = getStatusMessage r2 tctx tmpl) ∧
    (∀ i, r.compile ("context: " ++ renderJObj tctx ++ "\n" ++ tmpl) = .ok i →
      (∀ b, i.lookup HealthCheckPolicy = .bool b → checkHealth r tctx tmpl = .ok b) ∧
      (i.lookup HealthCheckPolicy = .missing → ∃ e, checkHealth r tctx tmpl = .error e) ∧
      (∀ s, i.lookup HealthCheckPolicy = .str s → ∃ e, checkHealth r tctx tmpl = .error e) ∧
      (∀ s, i.lookup CustomMessage = .str s → getStatusMessage r tctx tmpl = .ok s) ∧
      (i.lookup CustomMessage = .missing → ∃ e, getStatusMessage r tctx tmpl = .error e) ∧
      (∀ b, i.lookup CustomMessage = .bool b → ∃ e, getStatusMessage r tctx tmpl = .error e)) ∧
    (∀ e, r.compile ("context: " ++ renderJObj tctx ++ "\n" ++ tmpl) = .error e →
      checkHealth r tctx tmpl = .error ("compile health template: " ++ e) ∧
      getStatusMessage r tctx tmpl = .error e) := by
  refine ⟨?_, ?_, ?_⟩
  · intro hcomp
    constructor
    · simp only [checkHealth]
      rw [hcomp]
    · simp only [getStatusMessage]
      rw [hcomp]
  · intro i hi
    refine ⟨?_, ?_, ?_, ?_, ?_, ?_⟩
    · intro b hb
      simp [checkHealth, hi, hb, cueBool]
    · intro hm
      exact ⟨"evaluate health status: field not found", by simp [checkHealth, hi, hm, cueBool]⟩
    · intro s hs
      exact ⟨"evaluate health status: cannot use value as bool",
        by simp [checkHealth, hi, hs, cueBool]⟩
    · intro s hs
      simp [getStatusMessage, hi, hs, cueString]
    · intro hm
      exact ⟨"field not found", by simp [getStatusMessage, hi, hm, cueString]⟩
    · intro b hb
      exact ⟨"cannot use value as string", by simp [getStatusMessage, hi, hb, cueString]⟩
  · intro e he
    constructor
    · simp [checkHealth, he]
    · simp [getStatusMessage, he]

/-- Witness for C7: a concrete runtime whose compiled instance holds
`isHealth = true` and `message = "healthy"` makes health succeed with `true`
and status succeed with `"healthy"`. -/
theorem expression_eval_source_and_extract_w :
    checkHealth
        ⟨fun _ => .ok ⟨fun f => if f = "isHealth" then .bool true
          else if f = "message" then .str "healthy" else .missing⟩⟩
        [] "t" = .ok true ∧
    getStatusMessage
        ⟨fun _ => .ok ⟨fun f => if f = "isHealth" then .bool true
          else if f = "message" then .str "healthy" else .missing⟩⟩
        [] "t" = .ok "healthy" := by
  have h := (expression_eval_source_and_extract
    ⟨fun _ => .ok ⟨fun f => if f = "isHealth" then .bool true
      else if f = "message" then .str "healthy" else .missing⟩⟩
    ⟨fun _ => .ok ⟨fun f => if f = "isHealth" then .bool true
      else if f = "message" then .str "healthy" else .missing⟩⟩
    [] "t" (by decide)).2.1
    ⟨fun f => if f = "isHealth" then .bool true
      else if f = "message" then .str "healthy" else .missing⟩ rfl
  exact ⟨h.1 true rfl, h.2.2.2.1 "healthy" rfl⟩

/-- Witness for C9: two candidates, the first labeled `"a"`, the second
unlabeled — the unlabeled second candidate is returned. -/
theorem ambiguity_first_unlabeled_w :
    (getResourceFromObj ⟨"v1/Pod", ""⟩
        [⟨"v1/Pod", "ns", "p1", [("app", "x"), (TraitResource, "a")], [("n", JVal.str "A")]⟩,
         ⟨"v1/Pod", "ns", "p2", [("app", "x")], [("n", JVal.str "B")]⟩]
        "ns" [("app", "x")] "").1 = .ok [("n", JVal.str "B")] := by
  have h := (ambiguity_first_unlabeled ⟨"v1/Pod", ""⟩
    [⟨"v1/Pod", "ns", "p1", [("app", "x"), (TraitResource, "a")], [("n", JVal.str "A")]⟩,
     ⟨"v1/Pod", "ns", "p2", [("app", "x")], [("n", JVal.str "B")]⟩]
    "ns" [("app", "x")] _ rfl rfl (by decide)).1
  rw [h]; rfl

end KubeVela
